import Mathlib

/-
Verification of the `ralph` loop runner (src/src/main.rs) against its
natural-language specification.  The Rust program is shallowly embedded:
Rust strings become `List Char` (their UTF-8 byte view, where byte indexing
matters, is captured by explicit byte-size accounting), captured stream
bytes become `List Nat`, fallible calls return `Option`/`Except`, and the
interaction with the operating system (child processes, pipe reads, wall
clocks) is abstracted into explicit behaviour records that each function
consumes deterministically.
-/

set_option autoImplicit false

namespace Ralph

/-! ### Captured stream reads: `read_with_limit` (main.rs lines 385-398)

A reader is modelled as a list of events: each `data` chunk is a run of
bytes the pipe will deliver (an empty chunk is end-of-file, i.e. `Ok(0)`),
and `readErr` is a failing `read` call.  A single `read` with a buffer of
`k` bytes delivers at most `k` bytes of the front chunk, leaving the rest
of the chunk for the next call, exactly like a buffered pipe. -/

inductive ReadEvent where
  | data (bytes : List Nat)
  | readErr
deriving DecidableEq

/-- One `reader.read(&mut chunk[..k])` call against the event list:
`none` models `Err(_)`, `some bs` models `Ok(bs.length)` with `bs` the
bytes written into the buffer. -/
def streamRead : List ReadEvent → Nat → Option (List Nat) × List ReadEvent
  | [], _ => (some [], [])
  | .data bs :: rest, k =>
      if bs.length ≤ k then (some bs, rest)
      else (some (bs.take k), .data (bs.drop k) :: rest)
  | .readErr :: rest, _ => (none, rest)

/-- The `while buf.len() < limit` loop of `read_with_limit`: request
`min 8192 (limit - buf.len())` bytes; `Ok(0)` and `Err(_)` break, `Ok(n)`
extends the buffer and continues. -/
def readLoop (limit : Nat) (stream : List ReadEvent) (buf : List Nat) : List Nat :=
  if _h : buf.length < limit then
    match streamRead stream (min 8192 (limit - buf.length)) with
    | (some [], _) => buf
    | (some (b :: bs), stream') => readLoop limit stream' (buf ++ b :: bs)
    | (none, _) => buf
  else buf
termination_by limit - buf.length
decreasing_by simp [List.length_append]; omega

/-- `read_with_limit` (main.rs lines 385-398). -/
def read_with_limit (stream : List ReadEvent) (limit : Nat) : List Nat :=
  readLoop limit stream []

/-- Number of bytes the stream will deliver before its first end-of-file
or read error. -/
def availableBytes : List ReadEvent → Nat
  | [] => 0
  | .data bs :: rest => if bs.isEmpty then 0 else bs.length + availableBytes rest
  | .readErr :: _ => 0

/-! ### Byte-budget truncation: `truncate_string` (lines 258-265) and
`read_file_snippet` (lines 290-302)

Rust `String` lengths and slice indices are in UTF-8 bytes; `input[..limit]`
and `String::truncate(limit)` panic when `limit` is not a character
boundary.  A string is a `List Char`; `utf8Len` is its byte length and
`takeBytes s limit` is the prefix slice `s[..limit]`, `none` when the index
is not a boundary (the panic). -/

def utf8Size (c : Char) : Nat :=
  if c.val < 0x80 then 1
  else if c.val < 0x800 then 2
  else if c.val < 0x10000 then 3
  else 4

def utf8Len (s : List Char) : Nat := (s.map utf8Size).sum

/-- `s[..limit]` with `limit` counted in bytes: `none` models the Rust
panic `byte index is not a char boundary` (also the out-of-range panic). -/
def takeBytes : List Char → Nat → Option (List Char)
  | _, 0 => some []
  | [], _ + 1 => none
  | c :: rest, n + 1 =>
      if utf8Size c ≤ n + 1 then (takeBytes rest (n + 1 - utf8Size c)).map (c :: ·)
      else none

/-- The `"\n…"` suffix pushed after truncation. -/
def newlineEllipsis : List Char := "\n…".data

/-- `truncate_string` (main.rs lines 258-265); `none` models the panic of
`input[..limit]` on a non-boundary byte index. -/
def truncate_string (input : List Char) (limit : Nat) : Option (List Char) :=
  if utf8Len input ≤ limit then some input
  else (takeBytes input limit).map (fun pre => pre ++ newlineEllipsis)

inductive PanicOr (α : Type) where
  | panicked
  | ok (a : α)
deriving DecidableEq

/-- Rust `char::is_whitespace` (the Unicode White_Space property), by
code point: TAB, LF, VT, FF, CR, SPACE, NEL, NBSP, OGHAM SPACE MARK,
EN QUAD through HAIR SPACE, LINE and PARAGRAPH SEPARATOR, NARROW NBSP,
MEDIUM MATHEMATICAL SPACE, IDEOGRAPHIC SPACE. -/
def isRustWhitespace (c : Char) : Bool :=
  let v := c.val.toNat
  v == 0x09 || v == 0x0A || v == 0x0B || v == 0x0C || v == 0x0D ||
  v == 0x20 || v == 0x85 || v == 0xA0 || v == 0x1680 ||
  (0x2000 <= v && v <= 0x200A) ||
  v == 0x2028 || v == 0x2029 || v == 0x202F || v == 0x205F || v == 0x3000

def rustTrimStart (s : List Char) : List Char := s.dropWhile isRustWhitespace

def rustTrimEnd (s : List Char) : List Char :=
  (s.reverse.dropWhile isRustWhitespace).reverse

/-- Rust `str::trim`. -/
def rustTrim (s : List Char) : List Char := rustTrimEnd (rustTrimStart s)

/-- `read_file_snippet` (main.rs lines 290-302) applied to the result of
`read_to_string` (`none` = the read failed).  `panicked` models the panic
of `String::truncate` on a non-boundary byte index. -/
def read_file_snippet (readResult : Option (List Char)) (limit : Nat) :
    PanicOr (Option (List Char)) :=
  match readResult with
  | none => .ok none
  | some contents =>
      let snippet := rustTrim contents
      if limit < utf8Len snippet then
        match takeBytes snippet limit with
        | none => .panicked
        | some pre =>
            let s := pre ++ newlineEllipsis
            .ok (if s.isEmpty then none else some s)
      else .ok (if snippet.isEmpty then none else some snippet)

/-! ### The bounded process runner: `run_process_with_timeout`
(main.rs lines 400-465)

The operating-system side of one invocation is a `ChildBehavior`: whether
`spawn` fails, what writing the input payload to the child's stdin returns
(`write_all(..)?` — note the `?`), whether `wait_timeout(t)` observes the
exit within `t` seconds, the final exit status, and the two output streams.
`RunRes.killed`/`RunRes.reaped` record whether `child.kill()` was invoked
and whether the child was waited on (reaped). -/

inductive IoErrorKind where
  | timedOut
  | brokenPipe
  | notFound
  | other
deriving DecidableEq

structure ExitStatusM where
  success : Bool
  code : Option Int
deriving DecidableEq

structure OutputM where
  status : ExitStatusM
  stdout : List Nat
  stderr : List Nat
deriving DecidableEq

structure ChildBehavior where
  spawnErr : Option IoErrorKind
  stdinWriteErr : Option IoErrorKind
  exitsWithin : Nat → Bool
  status : ExitStatusM
  stdoutEvents : List ReadEvent
  stderrEvents : List ReadEvent

structure RunRes where
  result : Except IoErrorKind OutputM
  killed : Bool
  reaped : Bool

/-- `run_process_with_timeout` (main.rs lines 400-465).  Spawn; write the
input payload to stdin (the write error propagates through `?`); drain the
captured streams through `read_with_limit` with the 2 MiB cap; then either
wait without a deadline or race `wait_timeout`, killing and reaping the
child and failing with `ErrorKind::TimedOut` when the deadline passes. -/
def run_process_with_timeout (child : ChildBehavior) (input : Option (List Nat))
    (timeout : Option Nat) (capture_stdout capture_stderr : Bool) : RunRes :=
  match child.spawnErr with
  | some e => { result := .error e, killed := false, reaped := false }
  | none =>
    let stdinFailure : Option IoErrorKind :=
      match input with
      | some _ => child.stdinWriteErr
      | none => none
    match stdinFailure with
    | some e => { result := .error e, killed := false, reaped := false }
    | none =>
      let stdoutBuf := if capture_stdout then read_with_limit child.stdoutEvents (2 * 1024 * 1024) else []
      let stderrBuf := if capture_stderr then read_with_limit child.stderrEvents (2 * 1024 * 1024) else []
      match timeout with
      | some t =>
          if child.exitsWithin t then
            { result := .ok { status := child.status, stdout := stdoutBuf, stderr := stderrBuf },
              killed := false, reaped := true }
          else
            { result := .error .timedOut, killed := true, reaped := true }
      | none =>
          { result := .ok { status := child.status, stdout := stdoutBuf, stderr := stderrBuf },
            killed := false, reaped := true }

/-! ### JSON extraction: `extract_json_block` (main.rs lines 576-600) and
`parse_goal_payload` (lines 617-632)

`serde_json::from_str` is an external library call; it is abstracted as a
parameter `parse_json : List Char → Option JsonVal` of `parse_goal_payload`
(`none` models a parse error).  Everything else — trimming, the fenced
code block scan, the first-brace/last-brace fallback, field lookup with
the `ultimate_goal`/`goal` alias, trimming and empties rejection — is
translated directly. -/

def openBrace : Char := Char.ofNat 123

def closeBrace : Char := Char.ofNat 125

/-- Rust `str::lines`: split on LF, strip a trailing CR from each line,
and do not yield a final empty line for a trailing newline. -/
def splitNl : List Char → List (List Char)
  | [] => [[]]
  | c :: rest =>
      if c = '\n' then [] :: splitNl rest
      else
        match splitNl rest with
        | [] => [[c]]
        | l :: ls => (c :: l) :: ls

def stripCr (l : List Char) : List Char :=
  if l.getLast? = some '\r' then l.dropLast else l

def rustLines (s : List Char) : List (List Char) :=
  if s.isEmpty then []
  else
    let pieces := splitNl s
    let pieces := if s.getLast? = some '\n' then pieces.dropLast else pieces
    pieces.map stripCr

/-- Rust `str::find(char)` as an index (char-position; it addresses the
same character as the byte position Rust returns). -/
def findChar (c : Char) (l : List Char) : Option Nat := l.findIdx? (· = c)

/-- Rust `str::rfind(char)`. -/
def rfindChar (c : Char) (l : List Char) : Option Nat :=
  (l.reverse.findIdx? (· = c)).map (fun j => l.length - 1 - j)

/-- The body-collection loop of the fenced branch: push each line plus a
newline until a line whose `trim_start` opens with three backticks. -/
def collectBody : List (List Char) → List Char
  | [] => []
  | line :: rest =>
      if ("```".data).isPrefixOf (rustTrimStart line) then []
      else line ++ '\n' :: collectBody rest

/-- `extract_json_block` (main.rs lines 576-600). -/
def extract_json_block (text : List Char) : Option (List Char) :=
  let trimmed := rustTrim text
  let fenced : Option (List Char) :=
    if ("```".data).isPrefixOf trimmed then
      match rustLines trimmed with
      | [] => none
      | _opener :: rest =>
          let body := rustTrim (collectBody rest)
          if body.isEmpty then none else some body
    else none
  match fenced with
  | some body => some body
  | none =>
      match findChar openBrace trimmed, rfindChar closeBrace trimmed with
      | some s, some e =>
          if e ≤ s then none else some ((trimmed.drop s).take (e + 1 - s))
      | _, _ => none

/-- The fragment of `serde_json::Value` that `parse_goal_payload`
inspects: objects with their entries, strings, and everything else. -/
inductive JsonVal where
  | str (s : List Char)
  | obj (fields : List (List Char × JsonVal))
  | other

def lookupField : List (List Char × JsonVal) → List Char → Option JsonVal
  | [], _ => none
  | (k, v) :: rest, key => if k = key then some v else lookupField rest key

/-- `serde_json::Value::get(key)`: a field of an object, `None` on
non-objects. -/
def JsonVal.get (v : JsonVal) (key : List Char) : Option JsonVal :=
  match v with
  | .obj fields => lookupField fields key
  | _ => none

/-- `.and_then(|v| v.as_str()).map(|s| s.trim().to_string())
.filter(|s| !s.is_empty())` applied to a field lookup. -/
def asTrimmedNonEmpty (v : Option JsonVal) : Option (List Char) :=
  match v with
  | some (.str s) =>
      let t := rustTrim s
      if t.isEmpty then none else some t
  | _ => none

def ultimateGoalKey : List Char := "ultimate_goal".data

def goalKey : List Char := "goal".data

def nextActionKey : List Char := "next_action".data

/-- `parse_goal_payload` (main.rs lines 617-632), parametrised by the
serde JSON parser. -/
def parse_goal_payload (parse_json : List Char → Option JsonVal)
    (output : List Char) : Option (List Char × List Char) :=
  match extract_json_block output with
  | none => none
  | some candidate =>
    match parse_json candidate with
    | none => none
    | some value =>
      match asTrimmedNonEmpty ((value.get ultimateGoalKey).orElse
          (fun _ => value.get goalKey)) with
      | none => none
      | some ultimate =>
        match asTrimmedNonEmpty (value.get nextActionKey) with
        | none => none
        | some next_action => some (ultimate, next_action)

/-! ### The iteration loop of `main` (main.rs lines 1149-1249)

The loop `for i in 1..=iterations` is embedded with the number of
remaining iterations as a structural counter (`loopGo` at `fuel + 1`
executes iteration `i`, with `fuel` iterations left after it, so
`fuel == 0` is exactly the Rust guard `i < iterations` failing).  The
ambient world is a pair of functions: `elapsed i` is
`start.elapsed().as_secs()` observed at the top of iteration `i`, and
`invoke i` is the result of the agent invocation of iteration `i`
(`timedOut` = `ErrorKind::TimedOut`, `otherErr` = any other error).
`LoopState` records which iterations were attempted and which were
appended to the log by `append_log` (main.rs lines 724-755). -/

structure LoopConfig where
  iterations : Nat
  maxSeconds : Nat
  noLog : Bool
  stopToken : List Char

structure LoopState where
  invoked : List Nat
  logged : List Nat
deriving DecidableEq

inductive StopReason where
  | maxRuntime (maxSeconds : Nat)
  | runnerTimedOut
  | completionToken
  | maxIterations
deriving DecidableEq

/-- How `main` leaves the loop: `finished r` is the normal path (`main`
returns `Ok(())`, exit code zero, printing the stop reason when `r` is
`some`); `fatalExit c` is the `Err("Runner exited with code c")` return;
`fatalOther` is any other propagated invocation error. -/
inductive Outcome where
  | finished (reason : Option StopReason)
  | fatalExit (code : Int)
  | fatalOther
deriving DecidableEq

/-- Whether the outcome terminates the process abnormally (`main` returns
`Err(_)`, printing an error and exiting non-zero). -/
def Outcome.isFatal : Outcome → Bool
  | .finished _ => false
  | .fatalExit _ => true
  | .fatalOther => true

/-- The result of one agent invocation as seen by the loop: `ok` carries
the exit status and the lossy-decoded captured streams. -/
inductive InvokeResult where
  | ok (status : ExitStatusM) (stdout stderr : List Char)
  | timedOut
  | otherErr

/-- Rust `str::contains(&str)`: substring test — the needle occurs as a
prefix of some suffix of the haystack. -/
def strContains (haystack needle : List Char) : Bool :=
  match haystack with
  | [] => needle.isPrefixOf []
  | c :: t => needle.isPrefixOf (c :: t) || strContains t needle

/-- The `for i in 1..=iterations` loop body of `main` (lines 1152-1243):
runtime-budget check, invocation, logging, non-zero-exit failure, stop
token, and either recursion into the next iteration or the
max-iterations stop. -/
def loopGo (cfg : LoopConfig) (elapsed : Nat → Nat) (invoke : Nat → InvokeResult) :
    Nat → Nat → LoopState → LoopState × Outcome
  | 0, _, st => (st, .finished none)
  | fuel + 1, i, st =>
      if 0 < cfg.maxSeconds ∧ cfg.maxSeconds ≤ elapsed i then
        (st, .finished (some (.maxRuntime cfg.maxSeconds)))
      else
        let st1 : LoopState := { st with invoked := st.invoked ++ [i] }
        match invoke i with
        | .timedOut => (st1, .finished (some .runnerTimedOut))
        | .otherErr => (st1, .fatalOther)
        | .ok status stdout _stderr =>
            let st2 : LoopState :=
              { invoked := st1.invoked,
                logged := if cfg.noLog then st1.logged else st1.logged ++ [i] }
            if status.success = false then
              (st2, .fatalExit (status.code.getD 1))
            else if strContains stdout cfg.stopToken then
              (st2, .finished (some .completionToken))
            else if fuel == 0 then
              (st2, .finished (some .maxIterations))
            else
              loopGo cfg elapsed invoke fuel (i + 1) st2

/-- The whole loop as entered by `main`: iteration 1 with `iterations`
iterations allowed and nothing yet invoked or logged. -/
def main_loop (cfg : LoopConfig) (elapsed : Nat → Nat)
    (invoke : Nat → InvokeResult) : LoopState × Outcome :=
  loopGo cfg elapsed invoke cfg.iterations 1 { invoked := [], logged := [] }

/-! ## Lemmas about the stream reader -/

theorem streamRead_length {s : List ReadEvent} {k : Nat} {bs : List Nat}
    {s' : List ReadEvent} (h : streamRead s k = (some bs, s')) : bs.length ≤ k := by
  match s with
  | [] =>
      simp [streamRead] at h
      simp [h.1]
  | .data cs :: rest =>
      simp only [streamRead] at h
      split at h
      · next hle =>
          obtain ⟨h1, h2⟩ := Prod.mk.injEq .. ▸ h
          obtain rfl := Option.some.inj h1
          exact hle
      · next hgt =>
          obtain ⟨h1, h2⟩ := Prod.mk.injEq .. ▸ h
          obtain rfl := Option.some.inj h1
          simp only [List.length_take]
          omega
  | .readErr :: rest =>
      simp [streamRead] at h

theorem streamRead_eof_available {s s' : List ReadEvent} {k : Nat}
    (hk : 1 ≤ k) (h : streamRead s k = (some [], s')) : availableBytes s = 0 := by
  match s with
  | [] => rfl
  | .data cs :: rest =>
      simp only [streamRead] at h
      split at h
      · next hle =>
          obtain ⟨h1, h2⟩ := Prod.mk.injEq .. ▸ h
          obtain rfl := Option.some.inj h1
          rfl
      · next hgt =>
          obtain ⟨h1, h2⟩ := Prod.mk.injEq .. ▸ h
          have htake := Option.some.inj h1
          have hlen := congrArg List.length htake
          simp only [List.length_take, List.length_nil] at hlen
          omega
  | .readErr :: rest =>
      simp [streamRead] at h

theorem streamRead_err_available {s s' : List ReadEvent} {k : Nat}
    (h : streamRead s k = (none, s')) : availableBytes s = 0 := by
  match s with
  | [] => simp [streamRead] at h
  | .data cs :: rest =>
      simp only [streamRead] at h
      split at h <;> simp at h
  | .readErr :: rest => rfl

theorem streamRead_cons_available {s s' : List ReadEvent} {k b : Nat}
    {bs : List Nat} (h : streamRead s k = (some (b :: bs), s')) :
    availableBytes s ≤ (b :: bs).length + availableBytes s' := by
  match s with
  | [] =>
      simp [streamRead] at h
  | .data cs :: rest =>
      simp only [streamRead] at h
      split at h
      · next hle =>
          obtain ⟨h1, h2⟩ := Prod.mk.injEq .. ▸ h
          obtain rfl := Option.some.inj h1
          subst h2
          simp [availableBytes]
      · next hgt =>
          obtain ⟨h1, h2⟩ := Prod.mk.injEq .. ▸ h
          have htake := Option.some.inj h1
          subst h2
          have hcs : cs.isEmpty = false := by
            cases cs
            · simp at hgt
            · rfl
          have hdrop : (cs.drop k).isEmpty = false := by
            cases hd : cs.drop k with
            | nil =>
                have := congrArg List.length hd
                simp only [List.length_drop, List.length_nil] at this
                omega
            | cons _ _ => rfl
          have hlen := congrArg List.length htake
          simp only [List.length_take, List.length_cons] at hlen
          simp only [availableBytes, hcs, hdrop, Bool.false_eq_true, if_false,
            List.length_drop, List.length_cons]
          omega
  | .readErr :: rest =>
      simp [streamRead] at h

theorem readLoop_le (limit : Nat) :
    ∀ n stream buf, limit - buf.length ≤ n → buf.length ≤ limit →
      (readLoop limit stream buf).length ≤ limit := by
  intro n
  induction n with
  | zero =>
      intro stream buf hn hle
      rw [readLoop]
      split
      · next h => exact absurd h (by omega)
      · exact hle
  | succ n ih =>
      intro stream buf hn hle
      rw [readLoop]
      split
      · next hlt =>
          split
          · exact hle
          · next b bs stream' heq =>
              have hlen := streamRead_length heq
              simp only [List.length_cons] at hlen
              apply ih
              · simp only [List.length_append, List.length_cons]
                omega
              · simp only [List.length_append, List.length_cons]
                omega
          · exact hle
      · exact hle

theorem readLoop_eq (limit : Nat) :
    ∀ n stream buf, limit - buf.length ≤ n → buf.length ≤ limit →
      limit - buf.length ≤ availableBytes stream →
      (readLoop limit stream buf).length = limit := by
  intro n
  induction n with
  | zero =>
      intro stream buf hn hle _hav
      rw [readLoop]
      split
      · next h => exact absurd h (by omega)
      · omega
  | succ n ih =>
      intro stream buf hn hle hav
      rw [readLoop]
      split
      · next hlt =>
          have hk : 1 ≤ min 8192 (limit - buf.length) := by omega
          split
          · next heq =>
              have := streamRead_eof_available hk heq
              omega
          · next b bs stream' heq =>
              have hlen := streamRead_length heq
              have hgrow := streamRead_cons_available heq
              simp only [List.length_cons] at hlen hgrow
              apply ih
              · simp only [List.length_append, List.length_cons]
                omega
              · simp only [List.length_append, List.length_cons]
                omega
              · simp only [List.length_append, List.length_cons]
                omega
          · next heq =>
              have := streamRead_err_available heq
              omega
      · omega

/-- C2: for every captured stream, the buffer `read_with_limit` returns
never exceeds the 2 MiB cap, and whenever the stream delivers at least the
cap before any end-of-file or read error, the returned length is exactly
the cap, never more. -/
theorem c2_read_with_limit_cap (stream : List ReadEvent) :
    (read_with_limit stream (2 * 1024 * 1024)).length ≤ 2 * 1024 * 1024 ∧
    (2 * 1024 * 1024 ≤ availableBytes stream →
      (read_with_limit stream (2 * 1024 * 1024)).length = 2 * 1024 * 1024) := by
  constructor
  · exact readLoop_le (2 * 1024 * 1024) (2 * 1024 * 1024) stream [] (by simp) (by simp)
  · intro h
    exact readLoop_eq (2 * 1024 * 1024) (2 * 1024 * 1024) stream [] (by simp) (by simp)
      (by simpa using h)

/-- A stream offering a single chunk of exactly 2 MiB of zero bytes. -/
def bigStream : List ReadEvent := [.data (0 :: List.replicate (2 * 1024 * 1024 - 1) 0)]

theorem availableBytes_single (b : Nat) (l : List Nat) :
    availableBytes [.data (b :: l)] = l.length + 1 := by
  simp [availableBytes]

theorem c2_witness :
    2 * 1024 * 1024 ≤ availableBytes bigStream ∧
    (read_with_limit bigStream (2 * 1024 * 1024)).length = 2 * 1024 * 1024 := by
  have h : 2 * 1024 * 1024 ≤ availableBytes bigStream := by
    rw [bigStream, availableBytes_single, List.length_replicate]
  exact ⟨h, (c2_read_with_limit_cap bigStream).2 h⟩

/-- C1: with a configured timeout, once the runner reaches the wait (the
spawn succeeded and, if a payload was present, the stdin write succeeded)
and the child does not exit within the timeout, `run_process_with_timeout`
kills the child, reaps it, and fails the whole call with the distinct
timed-out error; it returns no (partial) `Output` at all. -/
theorem c1_timeout_kills_reaps_fails (child : ChildBehavior) (input : Option (List Nat))
    (t : Nat) (capture_stdout capture_stderr : Bool)
    (hspawn : child.spawnErr = none)
    (hstdin : input = none ∨ child.stdinWriteErr = none)
    (hwait : child.exitsWithin t = false) :
    run_process_with_timeout child input (some t) capture_stdout capture_stderr =
      { result := .error .timedOut, killed := true, reaped := true } := by
  cases input with
  | none => simp [run_process_with_timeout, hspawn, hwait]
  | some payload =>
      have h : child.stdinWriteErr = none := by
        rcases hstdin with h | h
        · exact absurd h (by simp)
        · exact h
      simp [run_process_with_timeout, hspawn, h, hwait]

/-- A child that never exits and produces nothing. -/
def child0 : ChildBehavior :=
  { spawnErr := none, stdinWriteErr := none, exitsWithin := fun _ => false,
    status := { success := true, code := some 0 }, stdoutEvents := [], stderrEvents := [] }

theorem c1_witness :
    (child0.spawnErr = none ∧ child0.stdinWriteErr = none ∧
      child0.exitsWithin 7 = false) ∧
    run_process_with_timeout child0 (some [104, 105]) (some 7) true true =
      { result := .error .timedOut, killed := true, reaped := true } :=
  ⟨⟨rfl, rfl, rfl⟩,
   c1_timeout_kills_reaps_fails child0 (some [104, 105]) 7 true true rfl (Or.inr rfl) rfl⟩

/-- A child that closes its stdin immediately, so that `write_all` on the
input payload reports a broken pipe. -/
def childBrokenPipe : ChildBehavior :=
  { spawnErr := none, stdinWriteErr := some .brokenPipe, exitsWithin := fun _ => true,
    status := { success := true, code := some 0 }, stdoutEvents := [], stderrEvents := [] }

/-- C5 (code bug): the spec says a child that exits before the input
payload is fully written must not fail the caller with a broken pipe, but
`run_process_with_timeout` propagates the `write_all` error through the
`?` operator (main.rs line 422): with a non-empty payload and a child
whose stdin write reports `BrokenPipe`, the whole call fails with that
error instead of returning a normal invocation result. -/
theorem c5_broken_pipe_propagates :
    run_process_with_timeout childBrokenPipe (some [104, 105]) none true true =
      { result := .error .brokenPipe, killed := false, reaped := false } := rfl

/-- LATIN SMALL LETTER E WITH ACUTE, a two-byte UTF-8 character. -/
def eAcute : Char := Char.ofNat 233

/-- C10 (code bug): the truncation helpers do panic when the byte limit
falls inside a multi-byte UTF-8 character: `truncate_string` on the
two-byte character e-acute with byte limit 1 slices at a non-boundary
index (`none` models the Rust char-boundary panic of `input[..limit]`),
and `read_file_snippet` panics the same way inside `String::truncate`. -/
theorem c10_truncation_panics :
    truncate_string [eAcute] 1 = none ∧
    read_file_snippet (some ['a', eAcute]) 2 = .panicked := by
  constructor
  · rfl
  · rfl


/-! ## Goal-payload parsing: C3 and C7 -/

theorem asTrimmedNonEmpty_isEmpty {v : Option JsonVal} {t : List Char}
    (h : asTrimmedNonEmpty v = some t) : t.isEmpty = false := by
  match v with
  | none => simp [asTrimmedNonEmpty] at h
  | some (.str s) =>
      simp only [asTrimmedNonEmpty] at h
      split at h
      · simp at h
      · next hne =>
          obtain rfl := Option.some.inj h
          simpa using hne
  | some (.obj f) => simp [asTrimmedNonEmpty] at h
  | some .other => simp [asTrimmedNonEmpty] at h

/-- C3: goal parsing is deterministic and fails closed: the same output
parses to the same result; when no JSON block can be located, when the
candidate does not parse, or when either required field (with the
`ultimate_goal`/`goal` alias) is missing, non-string, or empty after
trimming, the whole call yields no proposal; and any proposal it does
yield has both fields non-empty — never only one field settled. -/
theorem c3_parse_goal_fails_closed (parse_json : List Char → Option JsonVal)
    (output : List Char) :
    (parse_goal_payload parse_json output = parse_goal_payload parse_json output) ∧
    (extract_json_block output = none → parse_goal_payload parse_json output = none) ∧
    (∀ c, extract_json_block output = some c → parse_json c = none →
      parse_goal_payload parse_json output = none) ∧
    (∀ c value, extract_json_block output = some c → parse_json c = some value →
      (asTrimmedNonEmpty ((value.get ultimateGoalKey).orElse
          (fun _ => value.get goalKey)) = none ∨
        asTrimmedNonEmpty (value.get nextActionKey) = none) →
      parse_goal_payload parse_json output = none) ∧
    (∀ u n, parse_goal_payload parse_json output = some (u, n) →
      u.isEmpty = false ∧ n.isEmpty = false) := by
  refine ⟨rfl, ?_, ?_, ?_, ?_⟩
  · intro h
    simp [parse_goal_payload, h]
  · intro c h1 h2
    simp [parse_goal_payload, h1, h2]
  · intro c value h1 h2 h3
    rcases h3 with h3 | h3
    · simp [parse_goal_payload, h1, h2, h3]
    · cases hfst : asTrimmedNonEmpty ((value.get ultimateGoalKey).orElse
          (fun _ => value.get goalKey)) with
      | none => simp [parse_goal_payload, h1, h2, hfst]
      | some u => simp [parse_goal_payload, h1, h2, hfst, h3]
  · intro u n h
    cases he : extract_json_block output with
    | none =>
        simp only [parse_goal_payload, he] at h
        simp at h
    | some c =>
        cases hp : parse_json c with
        | none =>
            simp only [parse_goal_payload, he, hp] at h
            simp at h
        | some value =>
            cases hfst : asTrimmedNonEmpty ((value.get ultimateGoalKey).orElse
                (fun _ => value.get goalKey)) with
            | none =>
                simp only [parse_goal_payload, he, hp, hfst] at h
                simp at h
            | some u' =>
                cases hsnd : asTrimmedNonEmpty (value.get nextActionKey) with
                | none =>
                    simp only [parse_goal_payload, he, hp, hfst, hsnd] at h
                    simp at h
                | some n' =>
                    simp only [parse_goal_payload, he, hp, hfst, hsnd,
                      Option.some.injEq, Prod.mk.injEq] at h
                    obtain ⟨rfl, rfl⟩ := h
                    exact ⟨asTrimmedNonEmpty_isEmpty hfst, asTrimmedNonEmpty_isEmpty hsnd⟩

/-- A parser that always fails, for the witness. -/
def pNone : List Char → Option JsonVal := fun _ => none

theorem c3_witness :
    extract_json_block "hello".data = none ∧
    parse_goal_payload pNone "hello".data = none := by
  have he : extract_json_block "hello".data = none := by decide
  exact ⟨he, (c3_parse_goal_fails_closed pNone "hello".data).2.1 he⟩

/-- The agent output of the C7 scenario: a fenced json code block whose
body is the two-field object. -/
def scenarioOutput : List Char :=
  "```json\n\x7b\"ultimate_goal\":\"Ship v1\",\"next_action\":\"Write tests\"\x7d\n```".data

/-- The JSON text inside the fence. -/
def jsonCandidate : List Char :=
  "\x7b\"ultimate_goal\":\"Ship v1\",\"next_action\":\"Write tests\"\x7d".data

/-- The serde value of that JSON text. -/
def scenarioJson : JsonVal :=
  .obj [(ultimateGoalKey, .str "Ship v1".data), (nextActionKey, .str "Write tests".data)]

/-- C7: on the scenario output — exactly a fenced ```json block whose body
is the two-field object — the fenced block is what gets extracted, and
`parse_goal_payload` returns the proposal (Ship v1, Write tests), given
that the JSON parser parses the fenced body to the corresponding object. -/
theorem c7_fenced_json (parse_json : List Char → Option JsonVal)
    (hp : parse_json jsonCandidate = some scenarioJson) :
    parse_goal_payload parse_json scenarioOutput =
      some ("Ship v1".data, "Write tests".data) := by
  have he : extract_json_block scenarioOutput = some jsonCandidate := by decide
  simp only [parse_goal_payload, he, hp]
  decide

/-- A parser that returns the scenario object, for the witness. -/
def pScenario : List Char → Option JsonVal := fun _ => some scenarioJson

theorem c7_witness :
    pScenario jsonCandidate = some scenarioJson ∧
    parse_goal_payload pScenario scenarioOutput =
      some ("Ship v1".data, "Write tests".data) :=
  ⟨rfl, c7_fenced_json pScenario rfl⟩


/-! ## The iteration loop: C4, C6, C8, C9 -/

theorem strContains_iff (haystack needle : List Char) :
    strContains haystack needle = true ↔ needle <:+: haystack := by
  induction haystack with
  | nil =>
      simp [strContains, List.isPrefixOf_iff_prefix]
  | cons c t ih =>
      simp only [strContains, Bool.or_eq_true]
      rw [ List.isPrefixOf_iff_prefix, ih, List.infix_cons_iff]

/-- If the loop run ends with the completion-token stop reason, at least
one further invocation was recorded after the given state: the
token exit happens strictly after recording the iteration it stopped on. -/
theorem loopGo_invoked_grows (cfg : LoopConfig) (elapsed : Nat → Nat)
    (invoke : Nat → InvokeResult) :
    ∀ fuel i st st',
      loopGo cfg elapsed invoke fuel i st = (st', .finished (some .completionToken)) →
      st.invoked.length < st'.invoked.length := by
  intro fuel
  induction fuel with
  | zero =>
      intro i st st' h
      simp only [loopGo] at h
      obtain ⟨h1, h2⟩ := Prod.mk.injEq .. ▸ h
      simp at h2
  | succ fuel ih =>
      intro i st st' h
      simp only [loopGo] at h
      split at h
      · obtain ⟨h1, h2⟩ := Prod.mk.injEq .. ▸ h
        simp at h2
      · split at h
        · obtain ⟨h1, h2⟩ := Prod.mk.injEq .. ▸ h
          simp at h2
        · obtain ⟨h1, h2⟩ := Prod.mk.injEq .. ▸ h
          simp at h2
        · split at h
          · obtain ⟨h1, h2⟩ := Prod.mk.injEq .. ▸ h
            simp at h2
          · split at h
            · obtain ⟨h1, h2⟩ := Prod.mk.injEq .. ▸ h
              subst h1
              simp
            · split at h
              · obtain ⟨h1, h2⟩ := Prod.mk.injEq .. ▸ h
                simp at h2
              · have hrec := ih (i + 1) _ _ h
                simp only [List.length_append, List.length_cons] at hrec ⊢
                omega

/-- C4: on an iteration whose invocation succeeds (exit status success,
the runtime budget not yet exhausted), the loop stops on that very
iteration with the stop reason "completion token detected" — recording
exactly that iteration as the last one attempted — if and only if the
captured stdout contains the configured stop token as a substring,
anywhere; a stdout missing the token never stops the loop through that
path on that iteration. -/
theorem c4_stop_token_iff (cfg : LoopConfig) (elapsed : Nat → Nat)
    (invoke : Nat → InvokeResult) (fuel i : Nat) (s : LoopState)
    (status : ExitStatusM) (stdout stderr : List Char)
    (hrt : ¬(0 < cfg.maxSeconds ∧ cfg.maxSeconds ≤ elapsed i))
    (hinv : invoke i = .ok status stdout stderr)
    (hsucc : status.success = true) :
    ((loopGo cfg elapsed invoke (fuel + 1) i s).2 = .finished (some .completionToken) ∧
      (loopGo cfg elapsed invoke (fuel + 1) i s).1.invoked = s.invoked ++ [i])
      ↔ cfg.stopToken <:+: stdout := by
  rw [← strContains_iff stdout cfg.stopToken]
  have hrun : loopGo cfg elapsed invoke (fuel + 1) i s =
      (if strContains stdout cfg.stopToken then
        ({ invoked := s.invoked ++ [i],
           logged := if cfg.noLog then s.logged else s.logged ++ [i] },
         .finished (some .completionToken))
      else if fuel == 0 then
        ({ invoked := s.invoked ++ [i],
           logged := if cfg.noLog then s.logged else s.logged ++ [i] },
         .finished (some .maxIterations))
      else
        loopGo cfg elapsed invoke fuel (i + 1)
          { invoked := s.invoked ++ [i],
            logged := if cfg.noLog then s.logged else s.logged ++ [i] }) := by
    simp only [loopGo, hinv]
    rw [if_neg hrt]
    simp [hsucc]
  rw [hrun]
  cases hc : strContains stdout cfg.stopToken with
  | true =>
      simp
  | false =>
      simp only [Bool.false_eq_true, if_false, iff_false, not_and]
      intro hout hinvk
      split at hout
      · simp at hout
      · next hf =>
          rw [if_neg hf] at hinvk
          rcases hx : loopGo cfg elapsed invoke fuel (i + 1)
              { invoked := s.invoked ++ [i],
                logged := if cfg.noLog then s.logged else s.logged ++ [i] } with ⟨st', o⟩
          rw [hx] at hout hinvk
          simp only at hout hinvk
          subst hout
          have hgrow := loopGo_invoked_grows cfg elapsed invoke fuel (i + 1) _ _ hx
          simp [hinvk] at hgrow

/-- The loop configuration of the C4 witness. -/
def cfgW : LoopConfig :=
  { iterations := 1, maxSeconds := 0, noLog := false, stopToken := "DONE".data }

/-- The invocation of the C4 witness: success, stdout containing the
token. -/
def invW : Nat → InvokeResult :=
  fun _ => .ok { success := true, code := some 0 } "xDONEy".data []

theorem c4_witness :
    (¬(0 < cfgW.maxSeconds ∧ cfgW.maxSeconds ≤ (fun _ : Nat => 0) 1) ∧
      invW 1 = .ok { success := true, code := some 0 } "xDONEy".data [] ∧
      ({ success := true, code := some 0 } : ExitStatusM).success = true) ∧
    (((loopGo cfgW (fun _ => 0) invW (0 + 1) 1 { invoked := [], logged := [] }).2 =
          .finished (some .completionToken) ∧
        (loopGo cfgW (fun _ => 0) invW (0 + 1) 1 { invoked := [], logged := [] }).1.invoked =
          [] ++ [1])
      ↔ cfgW.stopToken <:+: "xDONEy".data) :=
  ⟨⟨by decide, rfl, rfl⟩,
    c4_stop_token_iff cfgW (fun _ => 0) invW 0 1 { invoked := [], logged := [] }
      { success := true, code := some 0 } "xDONEy".data [] (by decide) rfl rfl⟩

/-- The configuration of the C6 scenario: 5 iterations, logging on. -/
def cfg6 : LoopConfig :=
  { iterations := 5, maxSeconds := 0, noLog := false, stopToken := "__RALPH_DONE__".data }

/-- The invocations of the C6 scenario: exit code 2 on iteration 2, exit
code 0 (and no stop token) everywhere else. -/
def inv6 : Nat → InvokeResult := fun i =>
  if i == 2 then .ok { success := false, code := some 2 } [] []
  else .ok { success := true, code := some 0 } [] []

/-- C6: when the agent exits with code 2 on iteration 2 of 5 (all earlier
iterations exiting zero without the stop token), the loop ends in the
fatal error carrying exit code 2, exactly iterations 1 and 2 were
attempted (iteration 3 never), and exactly records 1 and 2 were appended
to the log — the failing iteration is logged before the fatal error is
raised. -/
theorem c6_scenario :
    main_loop cfg6 (fun _ => 0) inv6 =
      ({ invoked := [1, 2], logged := [1, 2] }, .fatalExit 2) := rfl

/-- A loop run can only finish normally without a stop reason when it had
zero iterations of fuel: every executed iteration that ends the loop
normally records a reason. -/
theorem loopGo_finished_none (cfg : LoopConfig) (elapsed : Nat → Nat)
    (invoke : Nat → InvokeResult) :
    ∀ fuel i st st',
      loopGo cfg elapsed invoke fuel i st = (st', .finished none) → fuel = 0 := by
  intro fuel
  induction fuel with
  | zero => intro i st st' _h; rfl
  | succ fuel ih =>
      intro i st st' h
      simp only [loopGo] at h
      split at h
      · injection h with h1 h2
        injection h2 with h3
        exact Option.noConfusion h3
      · split at h
        · injection h with h1 h2
          injection h2 with h3
          exact Option.noConfusion h3
        · injection h with h1 h2
          exact Outcome.noConfusion h2
        · split at h
          · injection h with h1 h2
            exact Outcome.noConfusion h2
          · split at h
            · injection h with h1 h2
              injection h2 with h3
              exact Option.noConfusion h3
            · split at h
              · injection h with h1 h2
                injection h2 with h3
                exact Option.noConfusion h3
              · next hguard =>
                  have h0 := ih (i + 1) _ _ h
                  simp at hguard
                  omega

/-- The configuration of the C8 counterexample: zero iterations. -/
def cfg0 : LoopConfig :=
  { iterations := 0, maxSeconds := 0, noLog := false, stopToken := "__RALPH_DONE__".data }

/-- C8 (counterexample): with iterations = 0 the `for i in 1..=0` loop
body never runs, the loop exits normally (main returns Ok, exit code
zero) and **no** stop reason has been recorded — refuting the claim that
exactly one stop reason is recorded on every normal exit including
iterations = 0. -/
theorem c8_counterexample :
    main_loop cfg0 (fun _ => 0) (fun _ => .otherErr) =
      ({ invoked := [], logged := [] }, .finished none) := rfl

/-- C8 (amended): whenever the loop exits normally and at least one
iteration was configured, exactly one stop reason — one of the four
`StopReason` values — has been recorded; with iterations = 0 the loop
exits normally with none. -/
theorem c8_amended (cfg : LoopConfig) (elapsed : Nat → Nat) (invoke : Nat → InvokeResult)
    (hiter : 1 ≤ cfg.iterations) (st' : LoopState) (r : Option StopReason)
    (hrun : main_loop cfg elapsed invoke = (st', .finished r)) : r.isSome = true := by
  cases r with
  | some _ => rfl
  | none =>
      simp only [main_loop] at hrun
      have h0 := loopGo_finished_none cfg elapsed invoke cfg.iterations 1 _ st' hrun
      omega

/-- The configuration of the C8/C9 witnesses: one iteration, logging
disabled. -/
def cfg1 : LoopConfig :=
  { iterations := 1, maxSeconds := 0, noLog := true, stopToken := "DONE".data }

theorem c8_witness :
    (1 ≤ cfg1.iterations ∧
      main_loop cfg1 (fun _ => 0) (fun _ => .timedOut) =
        ({ invoked := [1], logged := [] }, .finished (some .runnerTimedOut))) ∧
    (some StopReason.runnerTimedOut).isSome = true :=
  ⟨⟨by decide, rfl⟩,
    c8_amended cfg1 (fun _ => 0) (fun _ => .timedOut) (by decide) _ _ rfl⟩

/-- The configuration of the C9 counterexample. -/
def cfgT : LoopConfig :=
  { iterations := 3, maxSeconds := 0, noLog := false, stopToken := "__RALPH_DONE__".data }

/-- C9 (counterexample): a top-level invocation timeout does **not**
terminate the process abnormally: the loop run with a timed-out first
invocation ends in `finished (some runnerTimedOut)` — the distinct stop
reason — which is a normal exit (`isFatal = false`, main returns Ok with
exit code zero), refuting the claim that the timeout belongs to the
abnormally-terminating error class. -/
theorem c9_counterexample :
    main_loop cfgT (fun _ => 0) (fun _ => .timedOut) =
      ({ invoked := [1], logged := [] }, .finished (some .runnerTimedOut)) ∧
    (main_loop cfgT (fun _ => 0) (fun _ => .timedOut)).2.isFatal = false :=
  ⟨rfl, rfl⟩

/-- C9 (amended): a timed-out invocation on an iteration the loop reaches
is absorbed as the distinct stop reason "runner timed out": the loop
exits normally (not fatally) on that iteration, unlike other invocation
errors and non-zero agent exits, which are fatal. -/
theorem c9_amended (cfg : LoopConfig) (elapsed : Nat → Nat) (invoke : Nat → InvokeResult)
    (fuel i : Nat) (s : LoopState)
    (hrt : ¬(0 < cfg.maxSeconds ∧ cfg.maxSeconds ≤ elapsed i))
    (hinv : invoke i = .timedOut) :
    loopGo cfg elapsed invoke (fuel + 1) i s =
      ({ s with invoked := s.invoked ++ [i] }, .finished (some .runnerTimedOut)) ∧
    (Outcome.finished (some .runnerTimedOut)).isFatal = false := by
  constructor
  · simp only [loopGo, hinv]
    rw [if_neg hrt]
  · rfl

theorem c9_witness :
    (¬(0 < cfg1.maxSeconds ∧ cfg1.maxSeconds ≤ (fun _ : Nat => 0) 4) ∧
      (fun _ : Nat => InvokeResult.timedOut) 4 = InvokeResult.timedOut) ∧
    (loopGo cfg1 (fun _ => 0) (fun _ => .timedOut) (2 + 1) 4 { invoked := [9], logged := [] } =
        ({ invoked := [9, 4], logged := [] }, .finished (some .runnerTimedOut)) ∧
      (Outcome.finished (some .runnerTimedOut)).isFatal = false) :=
  ⟨⟨by decide, rfl⟩,
    (c9_amended cfg1 (fun _ => 0) (fun _ => .timedOut) 2 4
      { invoked := [9], logged := [] } (by decide) rfl).1,
    rfl⟩

end Ralph
